import Mathlib

/-
Verification of the Untappd photo scraper (src/scraper.py).

Shallow embedding: the pure data flow of `_load_all_photos` (pagination,
deduplication by photo id, JSON-metadata filtering, logo filtering, the
max-photos cap), `download_photos` (skip-existing files, per-item failure
handling, politeness delay) and `load_credentials` is translated into Lean
definitions.  External collaborators (BeautifulSoup, json.loads, Selenium,
requests, the filesystem) are modelled as oracles: a rendered page is a list
of items carrying the attribute values and parse outcomes those libraries
would produce, the driver is a function from the loop-iteration index to the
page rendered at that point, the network is a function from URL to a download
outcome, and the filesystem is an association list from filename to byte
content.
-/

set_option autoImplicit false

namespace Scraper

/-! ## String helpers modelling the Python string operations used -/

/-- Does the second list start with the first (pattern) list?
Models the prefix test underlying Python substring search. -/
def listStarts : List Char → List Char → Bool
  | [], _ => true
  | _ :: _, [] => false
  | p :: ps, c :: cs => p == c && listStarts ps cs

/-- Does the pattern occur as a contiguous sublist?  Models Python `pat in s`. -/
def listContains (pat : List Char) : List Char → Bool
  | [] => listStarts pat []
  | c :: cs => listStarts pat (c :: cs) || listContains pat cs

/-- Python `pat in s` (substring containment). -/
def strContains (s pat : String) : Bool :=
  listContains pat.data s.data

/-- Left-to-right non-overlapping replacement of a non-empty pattern, with
explicit fuel (the length of the scanned list suffices).  Models Python
`str.replace` for the non-empty patterns used in the scraper. -/
def pyReplaceAux (pat rep : List Char) : Nat → List Char → List Char
  | _, [] => []
  | 0, s => s
  | fuel + 1, c :: cs =>
    if listStarts pat (c :: cs) then
      rep ++ pyReplaceAux pat rep fuel (List.drop (pat.length - 1) cs)
    else
      c :: pyReplaceAux pat rep fuel cs

/-- Python `s.replace(pat, rep)` for the scraper's call sites. -/
def pyReplace (s pat rep : String) : String :=
  ⟨pyReplaceAux pat.data rep.data s.data.length s.data⟩

/-- Python `str.strip()`: drop leading and trailing whitespace. -/
def pyStrip (s : String) : String :=
  ⟨((s.data.dropWhile Char.isWhitespace).reverse.dropWhile Char.isWhitespace).reverse⟩

/-- Decimal digits of a natural number, fuelled (fuel `n + 1` suffices). -/
def natReprAux : Nat → Nat → List Char → List Char
  | 0, _, acc => acc
  | fuel + 1, n, acc =>
    let d := Char.ofNat (48 + n % 10)
    if n < 10 then d :: acc else natReprAux fuel (n / 10) (d :: acc)

/-- Decimal representation of a natural number (Python `str(n)` for `n ≥ 0`). -/
def natRepr (n : Nat) : String :=
  ⟨natReprAux (n + 1) n []⟩

/-- Zero-pad a digit string to the given width; models Python `f"{idx:04d}"`
for non-negative arguments when used with width 4. -/
def zeroPad (w : Nat) (s : String) : String :=
  ⟨List.replicate (w - s.length) '0' ++ s.data⟩

/-! ## Data model of the crawl (`_load_all_photos`, src/scraper.py lines 105-194) -/

/-- One entry of `all_photos`: the dict `{'url': img_url, 'photo_id': photo_id}`
appended at lines 139-142 of src/scraper.py. -/
structure PhotoRecord where
  url : String
  photo_id : String
deriving DecidableEq, Repr

/-- Outcome of the per-item metadata pipeline run by the external libraries:
`item.find('div', id=re.compile(r'^photoJSON_'))`, its `.string`, `json.loads`
and the `.get('photo', {}).get('photo_img_og')` chain (lines 126-130).
`noJson` covers an absent div or a falsy `.string`; `badJson` covers the
`json.JSONDecodeError` / `AttributeError` caught at line 144; `img v` is a
successful parse with `photo_img_og` equal to `v` (`none` when the field is
absent). -/
inductive ItemMeta where
  | noJson
  | badJson
  | img (photo_img_og : Option String)
deriving DecidableEq, Repr

/-- One anchor returned by `soup.find_all('a', class_='photo-item')`:
its `data-photo-id` attribute (as returned by `.get`, so `none` when absent)
and its metadata-parse outcome. -/
structure Item where
  dataPhotoId : Option String
  meta : ItemMeta
deriving DecidableEq, Repr

/-- The rendered document at one loop iteration: the gallery items found, and
for each of the four CSS selectors at lines 161-166 the result of
`find_element`: `none` models `NoSuchElementException`, `some b` a found
element whose `is_displayed() and is_enabled()` conjunction is `b`. -/
structure PageView where
  items : List Item
  selectorResults : List (Option Bool)
deriving Repr

/-- The body of the `for item in photo_items` loop (lines 119-145).  The state
is `(all_photos, seen_photo_ids)`; the seen set is modelled as a list used
only through membership, appended in first-seen order (Python's `set.add`).
An id is added to the seen set as soon as it is present, non-empty (Python
truthiness of `photo_id`) and unseen — before any metadata filtering. -/
def processItem (st : List PhotoRecord × List String) (item : Item) :
    List PhotoRecord × List String :=
  match item.dataPhotoId with
  | none => st
  | some pid =>
    if pid = "" then st
    else if pid ∈ st.2 then st
    else
      let seen := st.2 ++ [pid]
      match item.meta with
      | ItemMeta.noJson => (st.1, seen)
      | ItemMeta.badJson => (st.1, seen)
      | ItemMeta.img none => (st.1, seen)
      | ItemMeta.img (some og) =>
        if og = "" then (st.1, seen)
        else
          let imgUrl := pyReplace og "\\/" "/"
          if strContains imgUrl "beer_logos" || strContains imgUrl "brewery_logos" then
            (st.1, seen)
          else
            (st.1 ++ [⟨imgUrl, pid⟩], seen)

/-- One full scan of the rendered page (the `for item in photo_items` loop). -/
def processPage (st : List PhotoRecord × List String) : List Item →
    List PhotoRecord × List String
  | [] => st
  | it :: rest => processPage (processItem st it) rest

/-- The cap test `if max_photos and len(all_photos) >= max_photos` (line 150):
Python truthiness makes `None` and `0` both skip the cap. -/
def capReached : Option Nat → Nat → Bool
  | none, _ => false
  | some m, n => m != 0 && decide (m ≤ n)

/-- The slice `all_photos[:max_photos]` (line 151); slicing by `None` returns
the whole list. -/
def truncateTo : Option Nat → List PhotoRecord → List PhotoRecord
  | none, photos => photos
  | some m, photos => photos.take m

/-- The selector fallback loop (lines 168-184): a control is activated exactly
when some selector yields an element that is displayed and enabled. -/
def findShowMore (results : List (Option Bool)) : Bool :=
  results.any (fun r => r == some true)

/-- Result of a crawl: the returned `all_photos`, the final `seen_photo_ids`
(in first-seen order), and the number of load-more activations performed
(the final `load_more_attempts`). -/
structure CrawlResult where
  photos : List PhotoRecord
  seenIds : List String
  clicks : Nat
deriving DecidableEq, Repr

/-- The `while load_more_attempts < max_attempts` loop (lines 112-192), with
`fuel = max_attempts - load_more_attempts` and `iter` the number of clicks
performed so far (the rendered page evolves only through clicks, so the
driver oracle is indexed by it). -/
def loadMoreAux (env : Nat → PageView) (maxPhotos : Option Nat) :
    Nat → Nat → List PhotoRecord → List String → CrawlResult
  | 0, _, photos, seen => ⟨photos, seen, 0⟩
  | fuel + 1, iter, photos, seen =>
    let st := processPage (photos, seen) (env iter).items
    if capReached maxPhotos st.1.length then
      ⟨truncateTo maxPhotos st.1, st.2, 0⟩
    else if findShowMore (env iter).selectorResults then
      let r := loadMoreAux env maxPhotos fuel (iter + 1) st.1 st.2
      ⟨r.photos, r.seenIds, r.clicks + 1⟩
    else
      ⟨st.1, st.2, 0⟩

/-- `_load_all_photos` with its internal state exposed: `max_attempts = 100`,
`load_more_attempts = 0`, `all_photos = []`, `seen_photo_ids = set()`. -/
def loadAllPhotosFull (env : Nat → PageView) (maxPhotos : Option Nat) : CrawlResult :=
  loadMoreAux env maxPhotos 100 0 [] []

/-- The list `_load_all_photos` returns. -/
def loadAllPhotos (env : Nat → PageView) (maxPhotos : Option Nat) : List PhotoRecord :=
  (loadAllPhotosFull env maxPhotos).photos

/-! ## Credential loading (`load_credentials`, src/scraper.py lines 238-252) -/

/-- `load_credentials`: the file is modelled as `none` when
`os.path.exists` is false and `some rawLines` as the list of lines read by
`readlines()`.  The comprehension
`[line.strip() for line in f.readlines() if line.strip()]` strips every line
and keeps the non-empty ones; fewer than two surviving lines raise
`ValueError`, otherwise the first two are returned. -/
def load_credentials (file : Option (List String)) : Except String (String × String) :=
  match file with
  | none => Except.error "creds file not found"
  | some rawLines =>
    match (rawLines.map pyStrip).filter (fun l => l != "") with
    | l0 :: l1 :: _ => Except.ok (l0, l1)
    | _ => Except.error "creds file must contain 2 lines"

/-- Did `load_credentials` return normally (no exception raised)? -/
def credsOk : Except String (String × String) → Bool
  | Except.ok _ => true
  | Except.error _ => false

/-! ## Downloading (`download_photos`, src/scraper.py lines 196-235) -/

/-- File content, byte for byte. -/
abbrev Content := List Nat

/-- Outcome of one `session.get` / `raise_for_status` / streamed write for a
given URL: `fetchFail` models an exception before the file is opened
(network error or non-success status), `writeFail part` models a failure
during the streamed write after `part` was persisted (the `with open`
block closes the file, leaving the partial content), and `ok c` a fully
streamed body `c`. -/
inductive DlResult where
  | fetchFail
  | writeFail (part : Content)
  | ok (c : Content)
deriving DecidableEq, Repr

/-- Did the download attempt complete (so that control reaches
`time.sleep(self.delay)`)? -/
def dlOk : DlResult → Bool
  | DlResult.ok _ => true
  | _ => false

/-- State threaded through the `for idx, photo in enumerate(photos, 1)` loop:
the destination directory as an association list from filename to content,
the indices of the non-skipped (attempted) downloads in order, and the
number of `time.sleep(self.delay)` calls executed. -/
structure DlState where
  fs : List (String × Content)
  attempted : List Nat
  sleeps : Nat
deriving DecidableEq, Repr

/-- Lookup of a filename in the destination directory. -/
def fsGet (fs : List (String × Content)) (name : String) : Option Content :=
  match fs with
  | [] => none
  | (n, c) :: rest => if n = name then some c else fsGet rest name

/-- `filepath.exists()`. -/
def fsHas (fs : List (String × Content)) (name : String) : Bool :=
  (fsGet fs name).isSome

/-- The filename `f"photo_{idx:04d}.jpg"` built at line 212. -/
def fname (idx : Nat) : String :=
  "photo_" ++ zeroPad 4 (natRepr idx) ++ ".jpg"

/-- The body of the download loop (lines 209-233) for one record: skip when
the file exists; otherwise attempt the download, record the attempt, write
whatever content was persisted, and sleep only if the attempt ran to
completion (the `time.sleep` at line 229 sits inside the `try`, after the
write; the `except` clause at line 231 just continues). -/
def dlStep (net : String → DlResult) (st : DlState) (idx : Nat) (photo : PhotoRecord) :
    DlState :=
  let filename := fname idx
  if fsHas st.fs filename then st
  else
    match net photo.url with
    | DlResult.fetchFail => ⟨st.fs, st.attempted ++ [idx], st.sleeps⟩
    | DlResult.writeFail part => ⟨st.fs ++ [(filename, part)], st.attempted ++ [idx], st.sleeps⟩
    | DlResult.ok c => ⟨st.fs ++ [(filename, c)], st.attempted ++ [idx], st.sleeps + 1⟩

/-- The download loop over `enumerate(photos, idx)`. -/
def dlRun (net : String → DlResult) : Nat → List PhotoRecord → DlState → DlState
  | _, [], st => st
  | idx, p :: ps, st => dlRun net (idx + 1) ps (dlStep net st idx p)

/-- `download_photos`: iterate over the records with indices starting at 1,
against the initial destination directory `fs0`. -/
def download_photos (net : String → DlResult) (photos : List PhotoRecord)
    (fs0 : List (String × Content)) : DlState :=
  dlRun net 1 photos ⟨fs0, [], 0⟩

/-! ## Concrete fixtures used by examples, witnesses and counterexamples -/

/-- Gallery item with id `A`; its `photo_img_og` holds escaped separators. -/
def itA : Item := ⟨some "A", ItemMeta.img (some "h:\\/\\/x\\/a.jpg")⟩

/-- Gallery item with id `B`. -/
def itB : Item := ⟨some "B", ItemMeta.img (some "h://x/b.jpg")⟩

/-- Gallery item with id `C`. -/
def itC : Item := ⟨some "C", ItemMeta.img (some "h://x/c.jpg")⟩

/-- Gallery item with id `D`. -/
def itD : Item := ⟨some "D", ItemMeta.img (some "h://x/d.jpg")⟩

/-- Gallery item with id `E`. -/
def itE : Item := ⟨some "E", ItemMeta.img (some "h://x/e.jpg")⟩

/-- Gallery item whose metadata blob is unparsable. -/
def itBad : Item := ⟨some "X", ItemMeta.badJson⟩

/-- Final page of the three-pass example: items `{C, D}`, and the only
located control is not displayed, so no strategy succeeds. -/
def pvEnd : PageView := ⟨[itC, itD], [none, none, some false, none]⟩

/-- Driver for the deduplication example: passes `{A,B}`, `{B,C}`, `{C,D}`,
with a load-more control available after the first two. -/
def exEnv : Nat → PageView := fun i =>
  if i = 0 then ⟨[itA, itB], [some true, none, none, none]⟩
  else if i = 1 then ⟨[itB, itC], [none, some true, none, none]⟩
  else pvEnd

/-- Driver presenting five unique valid items on the first page. -/
def env5 : Nat → PageView := fun _ =>
  ⟨[itA, itB, itC, itD, itE], [none, none, some true, none]⟩

/-- Driver whose pages never expose an actionable load-more control. -/
def envNoButton : Nat → PageView := fun _ =>
  ⟨[itA, itB], [none, none, none, none]⟩

/-- The record produced by items `itA` … `itD` (escaped separators in `itA`
normalize away). -/
def recA : PhotoRecord := ⟨"h://x/a.jpg", "A"⟩

/-- The record produced by item `itB`. -/
def recB : PhotoRecord := ⟨"h://x/b.jpg", "B"⟩

/-- The record produced by item `itC`. -/
def recC : PhotoRecord := ⟨"h://x/c.jpg", "C"⟩

/-- The record produced by item `itD`. -/
def recD : PhotoRecord := ⟨"h://x/d.jpg", "D"⟩

/-- A network oracle on which every retrieval streams fully. -/
def netOk : String → DlResult := fun _ => DlResult.ok [1]

/-- A network oracle on which every retrieval raises before the write. -/
def netFail : String → DlResult := fun _ => DlResult.fetchFail

/-- A destination directory already holding the first target filename. -/
def fs1 : List (String × Content) := [("photo_0001.jpg", [7])]

/-- A record is logo-free when neither logo path segment occurs in its URL. -/
def logoFree (r : PhotoRecord) : Prop :=
  strContains r.url "beer_logos" = false ∧ strContains r.url "brewery_logos" = false

/-- The record list produced for a fresh item, which does not depend on the
seen set. -/
def itemRecords (ph : List PhotoRecord) (pid : String) : ItemMeta → List PhotoRecord
  | ItemMeta.img (some og) =>
    if og = "" then ph
    else
      let imgUrl := pyReplace og "\\/" "/"
      if strContains imgUrl "beer_logos" || strContains imgUrl "brewery_logos" then ph
      else ph ++ [⟨imgUrl, pid⟩]
  | _ => ph

/-! ## Shape of one item step -/

/-- Case analysis of `processItem`: either the item is skipped before the seen
set is touched (absent, empty or already-seen id) and the state is unchanged,
or the id is fresh, it is appended to the seen set, and the record list either
stays unchanged (metadata filtered out) or gains exactly one logo-free record
carrying that id. -/
lemma processItem_cases (st : List PhotoRecord × List String) (it : Item) :
    (processItem st it = st ∧ ∀ pid, it.dataPhotoId = some pid → pid = "" ∨ pid ∈ st.2) ∨
    ∃ pid, it.dataPhotoId = some pid ∧ pid ≠ "" ∧ pid ∉ st.2 ∧
      (processItem st it).2 = st.2 ++ [pid] ∧
      ((processItem st it).1 = st.1 ∨
        ∃ u, strContains u "beer_logos" = false ∧ strContains u "brewery_logos" = false ∧
          (processItem st it).1 = st.1 ++ [⟨u, pid⟩]) := by
  obtain ⟨pidOpt, meta⟩ := it
  cases pidOpt with
  | none => exact Or.inl ⟨rfl, by simp⟩
  | some pid =>
    by_cases h1 : pid = ""
    · refine Or.inl ⟨by simp [processItem, h1], ?_⟩
      intro pid' hp
      simp only [Option.some.injEq] at hp
      exact Or.inl (hp ▸ h1)
    · by_cases h2 : pid ∈ st.2
      · refine Or.inl ⟨by simp [processItem, h1, h2], ?_⟩
        intro pid' hp
        simp only [Option.some.injEq] at hp
        exact Or.inr (hp ▸ h2)
      · cases meta with
        | noJson =>
          exact Or.inr ⟨pid, rfl, h1, h2, by simp [processItem, h1, h2],
            Or.inl (by simp [processItem, h1, h2])⟩
        | badJson =>
          exact Or.inr ⟨pid, rfl, h1, h2, by simp [processItem, h1, h2],
            Or.inl (by simp [processItem, h1, h2])⟩
        | img og =>
          cases og with
          | none =>
            exact Or.inr ⟨pid, rfl, h1, h2, by simp [processItem, h1, h2],
              Or.inl (by simp [processItem, h1, h2])⟩
          | some og =>
            by_cases h3 : og = ""
            · exact Or.inr ⟨pid, rfl, h1, h2, by simp [processItem, h1, h2, h3],
                Or.inl (by simp [processItem, h1, h2, h3])⟩
            · by_cases h4 : (strContains (pyReplace og "\\/" "/") "beer_logos" ||
                  strContains (pyReplace og "\\/" "/") "brewery_logos") = true
              · exact Or.inr ⟨pid, rfl, h1, h2, by simp [processItem, h1, h2, h3, h4],
                  Or.inl (by simp [processItem, h1, h2, h3, h4])⟩
              · have h4' := h4
                simp only [Bool.or_eq_true, not_or, Bool.not_eq_true] at h4'
                refine Or.inr ⟨pid, rfl, h1, h2, by simp [processItem, h1, h2, h3, h4],
                  Or.inr ⟨pyReplace og "\\/" "/", h4'.1, h4'.2, ?_⟩⟩
                simp [processItem, h1, h2, h3, h4]

/-- The seen set only ever grows, by appending (first-seen order). -/
lemma processItem_seen_ext (st : List PhotoRecord × List String) (it : Item) :
    ∃ t, (processItem st it).2 = st.2 ++ t := by
  rcases processItem_cases st it with ⟨h, -⟩ | ⟨pid, -, -, -, h, -⟩
  · exact ⟨[], by simp [h]⟩
  · exact ⟨[pid], h⟩

/-- The record list only ever grows, by appending (first-seen order). -/
lemma processItem_photos_ext (st : List PhotoRecord × List String) (it : Item) :
    ∃ t, (processItem st it).1 = st.1 ++ t := by
  rcases processItem_cases st it with ⟨h, -⟩ | ⟨pid, -, -, -, -, h | ⟨u, -, -, h⟩⟩
  · exact ⟨[], by simp [h]⟩
  · exact ⟨[], by simp [h]⟩
  · exact ⟨[⟨u, pid⟩], h⟩

/-- The ids of the emitted records stay a subsequence of the seen list. -/
lemma processItem_sub (st : List PhotoRecord × List String) (it : Item)
    (h : List.Sublist (st.1.map PhotoRecord.photo_id) st.2) :
    List.Sublist ((processItem st it).1.map PhotoRecord.photo_id) ((processItem st it).2) := by
  rcases processItem_cases st it with ⟨he, -⟩ | ⟨pid, -, -, -, hs, hp | ⟨u, -, -, hp⟩⟩
  · rw [he]; exact h
  · rw [hp, hs]; exact h.trans (List.sublist_append_left _ _)
  · rw [hp, hs, List.map_append]
    exact h.append (List.Sublist.refl _)

/-- The seen list stays duplicate-free. -/
lemma processItem_nodup (st : List PhotoRecord × List String) (it : Item)
    (h : st.2.Nodup) : (processItem st it).2.Nodup := by
  rcases processItem_cases st it with ⟨he, -⟩ | ⟨pid, -, -, hfresh, hs, -⟩
  · rw [he]; exact h
  · rw [hs]
    exact h.append (List.nodup_singleton pid) (by simpa using hfresh)

/-- Every record emitted is logo-free. -/
lemma processItem_logoFree (st : List PhotoRecord × List String) (it : Item)
    (h : ∀ r ∈ st.1, logoFree r) : ∀ r ∈ (processItem st it).1, logoFree r := by
  rcases processItem_cases st it with ⟨he, -⟩ | ⟨pid, -, -, -, -, hp | ⟨u, hu1, hu2, hp⟩⟩
  · rw [he]; exact h
  · rw [hp]; exact h
  · rw [hp]
    intro r hr
    rcases List.mem_append.mp hr with hr | hr
    · exact h r hr
    · rcases List.mem_singleton.mp hr with rfl
      exact ⟨hu1, hu2⟩

/-- Membership in the seen set after one item: the previous members plus the
item's id whenever that id is present and non-empty — whether or not the
item survived the metadata filters. -/
lemma processItem_seen_mem (st : List PhotoRecord × List String) (it : Item) (q : String) :
    q ∈ (processItem st it).2 ↔ q ∈ st.2 ∨ (it.dataPhotoId = some q ∧ q ≠ "") := by
  rcases processItem_cases st it with ⟨he, hcond⟩ | ⟨pid, hid, hne, hfresh, hs, -⟩
  · rw [he]
    constructor
    · exact Or.inl
    · rintro (hq | ⟨hq, hne⟩)
      · exact hq
      · rcases hcond q hq with h | h
        · exact absurd h hne
        · exact h
  · rw [hs, hid, List.mem_append, List.mem_singleton]
    constructor
    · rintro (hq | rfl)
      · exact Or.inl hq
      · exact Or.inr ⟨rfl, hne⟩
    · rintro (hq | ⟨hq, -⟩)
      · exact Or.inl hq
      · exact Or.inr (Option.some.injEq _ _ ▸ hq).symm

/-- Every record present after one item step was either already present or
carries an id that is in the seen set afterwards. -/
lemma processItem_photos_mem (st : List PhotoRecord × List String) (it : Item) :
    ∀ r ∈ (processItem st it).1, r ∈ st.1 ∨ r.photo_id ∈ (processItem st it).2 := by
  rcases processItem_cases st it with ⟨he, -⟩ | ⟨pid, -, -, -, hs, hp | ⟨u, -, -, hp⟩⟩
  · rw [he]; exact fun r hr => Or.inl hr
  · rw [hp]; exact fun r hr => Or.inl hr
  · rw [hp, hs]
    intro r hr
    rcases List.mem_append.mp hr with hr | hr
    · exact Or.inl hr
    · rcases List.mem_singleton.mp hr with rfl
      exact Or.inr (by simp)

/-! ## Page-level lemmas -/

/-- Scanning a concatenation of item lists is scanning them in sequence. -/
lemma processPage_append (xs ys : List Item) :
    ∀ st, processPage st (xs ++ ys) = processPage (processPage st xs) ys := by
  induction xs with
  | nil => intro st; rfl
  | cons it rest ih => intro st; simpa [processPage] using ih (processItem st it)

/-- Across a page scan the seen list grows by appending. -/
lemma processPage_seen_ext (items : List Item) :
    ∀ st, ∃ t, (processPage st items).2 = st.2 ++ t := by
  induction items with
  | nil => exact fun st => ⟨[], by simp [processPage]⟩
  | cons it rest ih =>
    intro st
    obtain ⟨t1, h1⟩ := processItem_seen_ext st it
    obtain ⟨t2, h2⟩ := ih (processItem st it)
    exact ⟨t1 ++ t2, by rw [processPage, h2, h1, List.append_assoc]⟩

/-- Across a page scan the record list grows by appending. -/
lemma processPage_photos_ext (items : List Item) :
    ∀ st, ∃ t, (processPage st items).1 = st.1 ++ t := by
  induction items with
  | nil => exact fun st => ⟨[], by simp [processPage]⟩
  | cons it rest ih =>
    intro st
    obtain ⟨t1, h1⟩ := processItem_photos_ext st it
    obtain ⟨t2, h2⟩ := ih (processItem st it)
    exact ⟨t1 ++ t2, by rw [processPage, h2, h1, List.append_assoc]⟩

/-- Page scans preserve the record-ids-are-a-subsequence-of-seen invariant. -/
lemma processPage_sub (items : List Item) :
    ∀ st, List.Sublist (st.1.map PhotoRecord.photo_id) st.2 →
      List.Sublist ((processPage st items).1.map PhotoRecord.photo_id) ((processPage st items).2) := by
  induction items with
  | nil => exact fun st h => h
  | cons it rest ih => exact fun st h => ih _ (processItem_sub st it h)

/-- Page scans preserve freedom from duplicates of the seen list. -/
lemma processPage_nodup (items : List Item) :
    ∀ st, st.2.Nodup → (processPage st items).2.Nodup := by
  induction items with
  | nil => exact fun st h => h
  | cons it rest ih => exact fun st h => ih _ (processItem_nodup st it h)

/-- Page scans emit only logo-free records. -/
lemma processPage_logoFree (items : List Item) :
    ∀ st, (∀ r ∈ st.1, logoFree r) → ∀ r ∈ (processPage st items).1, logoFree r := by
  induction items with
  | nil => exact fun st h => h
  | cons it rest ih => exact fun st h => ih _ (processItem_logoFree st it h)

/-- Membership in the seen set after a page scan: the previous members plus
every present, non-empty id occurring on the page. -/
lemma processPage_seen_mem (items : List Item) :
    ∀ st q, q ∈ (processPage st items).2 ↔
      q ∈ st.2 ∨ ∃ it ∈ items, it.dataPhotoId = some q ∧ q ≠ "" := by
  induction items with
  | nil => intro st q; simp [processPage]
  | cons it rest ih =>
    intro st q
    rw [processPage, ih, processItem_seen_mem]
    constructor
    · rintro ((hq | ⟨hq, hne⟩) | ⟨it', hmem, hq⟩)
      · exact Or.inl hq
      · exact Or.inr ⟨it, List.mem_cons_self it rest, hq, hne⟩
      · exact Or.inr ⟨it', List.mem_cons_of_mem it hmem, hq⟩
    · rintro (hq | ⟨it', hmem, hq⟩)
      · exact Or.inl (Or.inl hq)
      · rcases List.mem_cons.mp hmem with rfl | hmem
        · exact Or.inl (Or.inr hq)
        · exact Or.inr ⟨it', hmem, hq⟩

/-- Every record present after a page scan was already present or carries an
id that is in the seen set afterwards. -/
lemma processPage_photos_mem (items : List Item) :
    ∀ st, ∀ r ∈ (processPage st items).1, r ∈ st.1 ∨ r.photo_id ∈ (processPage st items).2 := by
  induction items with
  | nil => exact fun st r hr => Or.inl hr
  | cons it rest ih =>
    intro st r hr
    rcases ih (processItem st it) r hr with hr' | hr'
    · rcases processItem_photos_mem st it r hr' with h | h
      · exact Or.inl h
      · obtain ⟨t, ht⟩ := processPage_seen_ext rest (processItem st it)
        exact Or.inr (by rw [processPage, ht]; exact List.mem_append.mpr (Or.inl h))
    · exact Or.inr hr'

/-! ## Loop-level lemmas -/

/-- With a non-zero requested maximum, the cap test is exactly the comparison
with the accumulated length. -/
lemma capReached_some (m n : Nat) (hm : m ≠ 0) : capReached (some m) n = true ↔ m ≤ n := by
  simp [capReached, hm]

/-- The number of load-more activations never exceeds the remaining fuel. -/
lemma loadMoreAux_clicks_le (env : Nat → PageView) (mp : Option Nat) :
    ∀ fuel iter photos seen, (loadMoreAux env mp fuel iter photos seen).clicks ≤ fuel := by
  intro fuel
  induction fuel with
  | zero => intro iter photos seen; exact Nat.le_refl 0
  | succ n ih =>
    intro iter photos seen
    simp only [loadMoreAux]
    split
    · exact Nat.zero_le _
    · split
      · exact Nat.succ_le_succ (ih (iter + 1) _ _)
      · exact Nat.zero_le _

/-- Through the whole pagination loop, the ids of the returned records stay a
subsequence of the seen list, and the seen list stays duplicate-free. -/
lemma loadMoreAux_inv (env : Nat → PageView) (mp : Option Nat) :
    ∀ fuel iter photos seen,
      List.Sublist (photos.map PhotoRecord.photo_id) seen → seen.Nodup →
      List.Sublist ((loadMoreAux env mp fuel iter photos seen).photos.map PhotoRecord.photo_id)
          (loadMoreAux env mp fuel iter photos seen).seenIds ∧
        (loadMoreAux env mp fuel iter photos seen).seenIds.Nodup := by
  intro fuel
  induction fuel with
  | zero => exact fun iter photos seen hsub hnd => ⟨hsub, hnd⟩
  | succ n ih =>
    intro iter photos seen hsub hnd
    have hsub' := processPage_sub (env iter).items (photos, seen) hsub
    have hnd' := processPage_nodup (env iter).items (photos, seen) hnd
    simp only [loadMoreAux]
    split
    · refine ⟨?_, hnd'⟩
      cases mp with
      | none => exact hsub'
      | some m =>
        simp only [truncateTo, List.map_take]
        exact (List.take_sublist _ _).trans hsub'
    · split
      · exact ih (iter + 1) _ _ hsub' hnd'
      · exact ⟨hsub', hnd'⟩

/-- All records returned by the pagination loop are logo-free, provided the
accumulated ones are. -/
lemma loadMoreAux_logoFree (env : Nat → PageView) (mp : Option Nat) :
    ∀ fuel iter photos seen, (∀ r ∈ photos, logoFree r) →
      ∀ r ∈ (loadMoreAux env mp fuel iter photos seen).photos, logoFree r := by
  intro fuel
  induction fuel with
  | zero => exact fun iter photos seen h => h
  | succ n ih =>
    intro iter photos seen h
    have h' := processPage_logoFree (env iter).items (photos, seen) h
    simp only [loadMoreAux]
    split
    · intro r hr
      refine h' r ?_
      cases mp with
      | none => exact hr
      | some m => exact List.take_subset _ _ hr
    · split
      · exact ih (iter + 1) _ _ h'
      · exact h'

/-- Once the accumulated count is below a non-zero requested maximum, the loop
can only return a longer list by truncating it to exactly that maximum. -/
lemma loadMoreAux_cap (env : Nat → PageView) (m : Nat) (hm : m ≠ 0) :
    ∀ fuel iter photos seen, photos.length < m →
      m ≤ (loadMoreAux env (some m) fuel iter photos seen).photos.length →
      (loadMoreAux env (some m) fuel iter photos seen).photos.length = m := by
  intro fuel
  induction fuel with
  | zero =>
    intro iter photos seen hlt hge
    exact absurd hge (by simpa [loadMoreAux] using Nat.not_le.mpr hlt)
  | succ n ih =>
    intro iter photos seen hlt hge
    by_cases hc : capReached (some m) (processPage (photos, seen) (env iter).items).1.length = true
    · have hmle := (capReached_some m _ hm).mp hc
      simp only [loadMoreAux, hc, if_true, truncateTo, List.length_take]
      omega
    · have hlt' : (processPage (photos, seen) (env iter).items).1.length < m := by
        rcases Nat.lt_or_ge (processPage (photos, seen) (env iter).items).1.length m with h | h
        · exact h
        · exact absurd ((capReached_some m _ hm).mpr h) hc
      by_cases hb : findShowMore (env iter).selectorResults = true
      · have := ih (iter + 1) (processPage (photos, seen) (env iter).items).1
          (processPage (photos, seen) (env iter).items).2 hlt'
        simp only [loadMoreAux, hc, hb, Bool.false_eq_true, if_true, if_false] at hge ⊢
        exact this hge
      · simp only [loadMoreAux, hc, hb, Bool.false_eq_true, if_false] at hge ⊢
        omega

/-- Requesting a maximum of zero runs the loop exactly as requesting none. -/
lemma loadMoreAux_zero (env : Nat → PageView) :
    ∀ fuel iter photos seen,
      loadMoreAux env (some 0) fuel iter photos seen =
        loadMoreAux env none fuel iter photos seen := by
  intro fuel
  induction fuel with
  | zero => intro iter photos seen; rfl
  | succ n ih =>
    intro iter photos seen
    have hc : capReached (some 0) (processPage (photos, seen) (env iter).items).1.length = false := by
      simp [capReached]
    have hc' : capReached none (processPage (photos, seen) (env iter).items).1.length = false := rfl
    simp only [loadMoreAux, hc, hc', Bool.false_eq_true, if_false]
    split
    · rw [ih]
    · rfl

/-- When neither the cap triggers nor any selector strategy yields an
actionable control, the loop returns the state accumulated through the
current page scan, performing no further activation. -/
lemma loadMoreAux_noButton (env : Nat → PageView) (mp : Option Nat)
    (fuel iter : Nat) (photos : List PhotoRecord) (seen : List String)
    (hcap : capReached mp (processPage (photos, seen) (env iter).items).1.length = false)
    (hbtn : findShowMore (env iter).selectorResults = false) :
    loadMoreAux env mp (fuel + 1) iter photos seen =
      ⟨(processPage (photos, seen) (env iter).items).1,
        (processPage (photos, seen) (env iter).items).2, 0⟩ := by
  simp [loadMoreAux, hcap, hbtn]

/-! ## Congruence of a page scan in the seen set -/

/-- Computation of `processItem` on an item with a fresh, non-empty id. -/
lemma processItem_fresh (ph : List PhotoRecord) (s : List String) (q0 : String)
    (meta : ItemMeta) (h1 : q0 ≠ "") (h2 : q0 ∉ s) :
    processItem (ph, s) ⟨some q0, meta⟩ = (itemRecords ph q0 meta, s ++ [q0]) := by
  cases meta with
  | noJson => simp [processItem, itemRecords, h1, h2]
  | badJson => simp [processItem, itemRecords, h1, h2]
  | img og =>
    cases og with
    | none => simp [processItem, itemRecords, h1, h2]
    | some og =>
      by_cases h3 : og = ""
      · simp [processItem, itemRecords, h1, h2, h3]
      · by_cases h4 : (strContains (pyReplace og "\\/" "/") "beer_logos" ||
            strContains (pyReplace og "\\/" "/") "brewery_logos") = true <;>
          simp [processItem, itemRecords, h1, h2, h3, h4]

/-- Computation of `processItem` when the id is empty or already seen. -/
lemma processItem_skip (ph : List PhotoRecord) (s : List String) (q0 : String)
    (meta : ItemMeta) (h : q0 = "" ∨ q0 ∈ s) :
    processItem (ph, s) ⟨some q0, meta⟩ = (ph, s) := by
  rcases h with h | h
  · simp [processItem, h]
  · by_cases h1 : q0 = ""
    · simp [processItem, h1]
    · simp [processItem, h1, h]

/-- One item step under two seen sets that agree on membership everywhere
except possibly at `pid`: if the item's id is not `pid`, the produced record
lists are equal and the resulting seen sets again agree away from `pid`. -/
lemma processItem_seen_congr (ph : List PhotoRecord) (s₁ s₂ : List String) (it : Item)
    (pid : String) (hit : it.dataPhotoId ≠ some pid)
    (hmem : ∀ q, q ≠ pid → (q ∈ s₁ ↔ q ∈ s₂)) :
    (processItem (ph, s₁) it).1 = (processItem (ph, s₂) it).1 ∧
      ∀ q, q ≠ pid → (q ∈ (processItem (ph, s₁) it).2 ↔ q ∈ (processItem (ph, s₂) it).2) := by
  obtain ⟨pidOpt, meta⟩ := it
  cases pidOpt with
  | none => exact ⟨rfl, hmem⟩
  | some q0 =>
    have hq0 : q0 ≠ pid := fun h => hit (by rw [h])
    by_cases h1 : q0 = ""
    · rw [processItem_skip ph s₁ q0 meta (Or.inl h1),
        processItem_skip ph s₂ q0 meta (Or.inl h1)]
      exact ⟨rfl, hmem⟩
    · by_cases h2 : q0 ∈ s₁
      · have h2' : q0 ∈ s₂ := (hmem q0 hq0).mp h2
        rw [processItem_skip ph s₁ q0 meta (Or.inr h2),
          processItem_skip ph s₂ q0 meta (Or.inr h2')]
        exact ⟨rfl, hmem⟩
      · have h2' : q0 ∉ s₂ := fun h => h2 ((hmem q0 hq0).mpr h)
        rw [processItem_fresh ph s₁ q0 meta h1 h2, processItem_fresh ph s₂ q0 meta h1 h2']
        refine ⟨rfl, ?_⟩
        intro q hq
        simp only [List.mem_append, List.mem_singleton]
        exact or_congr (hmem q hq) Iff.rfl

/-- A page scan under two seen sets that agree on membership away from `pid`
produces the same record list, provided no item on the page carries id
`pid`. -/
lemma processPage_seen_congr (pid : String) :
    ∀ (items : List Item) (ph : List PhotoRecord) (s₁ s₂ : List String),
      (∀ it ∈ items, it.dataPhotoId ≠ some pid) →
      (∀ q, q ≠ pid → (q ∈ s₁ ↔ q ∈ s₂)) →
      (processPage (ph, s₁) items).1 = (processPage (ph, s₂) items).1 := by
  intro items
  induction items with
  | nil => intro ph s₁ s₂ _ _; rfl
  | cons it rest ih =>
    intro ph s₁ s₂ hits hmem
    have hstep := processItem_seen_congr ph s₁ s₂ it pid (hits it (List.mem_cons_self it rest)) hmem
    have e₂ : processItem (ph, s₂) it =
        ((processItem (ph, s₁) it).1, (processItem (ph, s₂) it).2) :=
      Prod.ext_iff.mpr ⟨hstep.1.symm, rfl⟩
    simp only [processPage]
    rw [e₂]
    exact ih _ _ _ (fun it' h => hits it' (List.mem_cons_of_mem it h)) hstep.2

/-! ## Download-loop lemmas -/

/-- Appending entries at the end of the directory preserves every lookup that
already succeeded. -/
lemma fsGet_append_some (fs l : List (String × Content)) (name : String) (c : Content)
    (h : fsGet fs name = some c) : fsGet (fs ++ l) name = some c := by
  induction fs with
  | nil => exact absurd h (by simp [fsGet])
  | cons e rest ih =>
    obtain ⟨n, c'⟩ := e
    by_cases hn : n = name
    · simpa [fsGet, hn] using by simpa [fsGet, hn] using h
    · rw [List.cons_append, fsGet, if_neg hn]
      exact ih (by simpa [fsGet, hn] using h)

/-- One download step never changes or removes a file that was present. -/
lemma dlStep_fs_pres (net : String → DlResult) (st : DlState) (idx : Nat) (p : PhotoRecord)
    (name : String) (c : Content) (h : fsGet st.fs name = some c) :
    fsGet (dlStep net st idx p).fs name = some c := by
  unfold dlStep
  by_cases hf : fsHas st.fs (fname idx) = true
  · simpa [hf] using h
  · cases hnet : net p.url with
    | fetchFail => simpa [hf, hnet] using h
    | writeFail part => simpa [hf, hnet] using fsGet_append_some st.fs _ name c h
    | ok c' => simpa [hf, hnet] using fsGet_append_some st.fs _ name c h

/-- One download step either skips (file present, attempts unchanged) or
records exactly one attempt at an index whose file was absent. -/
lemma dlStep_attempted (net : String → DlResult) (st : DlState) (idx : Nat) (p : PhotoRecord) :
    (dlStep net st idx p).attempted = st.attempted ∨
      ((dlStep net st idx p).attempted = st.attempted ++ [idx] ∧
        fsGet st.fs (fname idx) = none) := by
  unfold dlStep
  by_cases hf : fsHas st.fs (fname idx) = true
  · exact Or.inl (by simp [hf])
  · have hnone : fsGet st.fs (fname idx) = none := by
      rcases h : fsGet st.fs (fname idx) with - | c
      · rfl
      · exact absurd (by simp [fsHas, h]) hf
    cases hnet : net p.url with
    | fetchFail => exact Or.inr ⟨by simp [hf, hnet], hnone⟩
    | writeFail part => exact Or.inr ⟨by simp [hf, hnet], hnone⟩
    | ok c' => exact Or.inr ⟨by simp [hf, hnet], hnone⟩

/-- Invariant of the whole download loop relative to the initial directory:
initial files keep their content, and every attempted index had no file
initially. -/
lemma dlRun_inv (net : String → DlResult) (fs0 : List (String × Content)) :
    ∀ (ps : List PhotoRecord) (idx : Nat) (st : DlState),
      (∀ name c, fsGet fs0 name = some c → fsGet st.fs name = some c) →
      (∀ j, j ∈ st.attempted → fsGet fs0 (fname j) = none) →
      (∀ name c, fsGet fs0 name = some c → fsGet (dlRun net idx ps st).fs name = some c) ∧
        ∀ j, j ∈ (dlRun net idx ps st).attempted → fsGet fs0 (fname j) = none := by
  intro ps
  induction ps with
  | nil => exact fun idx st h1 h2 => ⟨h1, h2⟩
  | cons p rest ih =>
    intro idx st h1 h2
    refine ih (idx + 1) (dlStep net st idx p) ?_ ?_
    · exact fun name c hc => dlStep_fs_pres net st idx p name c (h1 name c hc)
    · intro j hj
      rcases dlStep_attempted net st idx p with ha | ⟨ha, hnone⟩
      · rw [ha] at hj
        exact h2 j hj
      · rw [ha] at hj
        rcases List.mem_append.mp hj with hj | hj
        · exact h2 j hj
        · rcases List.mem_singleton.mp hj with rfl
          rcases hget : fsGet fs0 (fname j) with - | c
          · rfl
          · have hst := h1 _ _ hget
            rw [hnone] at hst
            cases hst

/-! ## Claim theorems -/

/-- C1: for any sequence of extraction passes over rendered documents, the
photo-record list returned by the crawl contains each unique photo id at most
once, and the records appear in first-seen order across all passes (their ids
form a subsequence of the final seen list, which is maintained in first-seen
order of the encountered ids); on the three passes `{A,B}`, `{B,C}`, `{C,D}`
the result is exactly `[A, B, C, D]`. -/
theorem crawl_dedup_first_seen :
    (∀ (env : Nat → PageView) (mp : Option Nat),
        ((loadAllPhotosFull env mp).photos.map PhotoRecord.photo_id).Nodup ∧
          List.Sublist ((loadAllPhotosFull env mp).photos.map PhotoRecord.photo_id)
            (loadAllPhotosFull env mp).seenIds) ∧
      loadAllPhotos exEnv none = [recA, recB, recC, recD] := by
  constructor
  · intro env mp
    have h := loadMoreAux_inv env mp 100 0 [] [] (by simp) List.nodup_nil
    exact ⟨h.2.sublist h.1, h.1⟩
  · decide

/-- C2: whenever a non-zero maximum photo count is requested and the
accumulated record count reaches it, the crawl returns a list of exactly the
requested length. -/
theorem crawl_cap_exact (env : Nat → PageView) (m : Nat) (hm : m ≠ 0)
    (h : m ≤ (loadAllPhotos env (some m)).length) :
    (loadAllPhotos env (some m)).length = m :=
  loadMoreAux_cap env m hm 100 0 [] [] (Nat.pos_of_ne_zero hm) h

/-- Witness for C2: with `maxPhotos = 3` and five available unique items, the
crawl returns exactly 3 records. -/
theorem crawl_cap_exact_witness : (loadAllPhotos env5 (some 3)).length = 3 :=
  crawl_cap_exact env5 3 (by decide) (by decide)

/-- C3, counterexample: an item whose metadata blob fails to parse emits no
record, yet its id is in `seen_photo_ids` — the code adds the id to the seen
set before the filters run, so `SeenIdSet` does not contain exactly the ids
of emitted records. -/
theorem seen_includes_filtered_cex :
    (processPage ([], []) [itBad]).1 = [] ∧ "X" ∈ (processPage ([], []) [itBad]).2 := by
  decide

/-- C3, amended: throughout a crawl, `SeenIdSet` contains exactly the ids of
the items encountered so far with a present, non-empty id attribute — whether
or not they survived the metadata filters — and every emitted record's id is
in `SeenIdSet`. -/
theorem seen_tracks_encountered_ids (items : List Item) (photos : List PhotoRecord)
    (seen : List String) :
    (∀ q, q ∈ (processPage (photos, seen) items).2 ↔
        q ∈ seen ∨ ∃ it ∈ items, it.dataPhotoId = some q ∧ q ≠ "") ∧
      ∀ r ∈ (processPage (photos, seen) items).1,
        r ∈ photos ∨ r.photo_id ∈ (processPage (photos, seen) items).2 :=
  ⟨processPage_seen_mem items (photos, seen), processPage_photos_mem items (photos, seen)⟩

/-- Witness for C3 (amended): the record emitted for item `A` carries an id
that is in the seen set afterwards. -/
theorem seen_tracks_encountered_ids_witness :
    recA ∈ ([] : List PhotoRecord) ∨ recA.photo_id ∈ (processPage ([], []) [itA]).2 :=
  (seen_tracks_encountered_ids [itA] [] []).2 recA (by decide)

/-- C4, counterexample: a credential file with three non-empty lines loads
successfully, so loading does not require exactly two non-empty lines. -/
theorem load_credentials_three_lines_cex :
    credsOk (load_credentials (some ["a", "b", "c"])) = true ∧
      ((["a", "b", "c"].map pyStrip).filter (fun l => l != "")).length ≠ 2 := by
  decide

/-- C4, amended: credential loading succeeds if and only if the credential
file exists and contains at least two non-empty lines (after stripping);
the first two such lines are used as identity and secret, and any other file
content raises a configuration error. -/
theorem load_credentials_ok_iff (file : Option (List String)) :
    credsOk (load_credentials file) = true ↔
      ∃ lines, file = some lines ∧
        2 ≤ ((lines.map pyStrip).filter (fun l => l != "")).length := by
  cases file with
  | none => simp [load_credentials, credsOk]
  | some ls =>
    rcases hfl : (ls.map pyStrip).filter (fun l => l != "") with - | ⟨l0, - | ⟨l1, rest⟩⟩ <;>
      simp [load_credentials, credsOk, hfl]

/-- C5: the pagination loop is bounded — it performs at most 100 load-more
activations — and on a pass where the cap is not hit and no selector strategy
yields an actionable control it returns everything accumulated through that
pass, with no further activation and no error. -/
theorem pagination_bounded_exhaustion :
    (∀ (env : Nat → PageView) (mp : Option Nat), (loadAllPhotosFull env mp).clicks ≤ 100) ∧
      ∀ (env : Nat → PageView) (mp : Option Nat) (fuel iter : Nat)
        (photos : List PhotoRecord) (seen : List String),
        capReached mp (processPage (photos, seen) (env iter).items).1.length = false →
        findShowMore (env iter).selectorResults = false →
        loadMoreAux env mp (fuel + 1) iter photos seen =
          ⟨(processPage (photos, seen) (env iter).items).1,
            (processPage (photos, seen) (env iter).items).2, 0⟩ :=
  ⟨fun env mp => loadMoreAux_clicks_le env mp 100 0 [] [],
    fun env mp fuel iter photos seen hcap hbtn =>
      loadMoreAux_noButton env mp fuel iter photos seen hcap hbtn⟩

/-- Witness for C5: on a driver that never exposes an actionable control, the
crawl returns the first page's records immediately, with zero activations. -/
theorem pagination_bounded_exhaustion_witness :
    loadMoreAux envNoButton none 100 0 [] [] =
      ⟨(processPage ([], []) (envNoButton 0).items).1,
        (processPage ([], []) (envNoButton 0).items).2, 0⟩ :=
  pagination_bounded_exhaustion.2 envNoButton none 99 0 [] [] (by decide) (by decide)

/-- C6: a parse failure for a single gallery item — invalid JSON payload,
absent payload container, or missing image-URL field — causes only that item
to be skipped: as long as no later item on the page reuses its id, the record
list produced by the page scan is the same as if the failing item were
absent, so one unparsable metadata blob among N otherwise-valid items yields
exactly the N records of those items. -/
theorem parse_failure_skips_only_item (photos : List PhotoRecord) (seen : List String)
    (pre post : List Item) (bad : Item)
    (hbad : bad.meta = ItemMeta.badJson ∨ bad.meta = ItemMeta.noJson ∨
      bad.meta = ItemMeta.img none)
    (hpost : ∀ pid, bad.dataPhotoId = some pid → ∀ it ∈ post, it.dataPhotoId ≠ some pid) :
    (processPage (photos, seen) (pre ++ bad :: post)).1 =
      (processPage (photos, seen) (pre ++ post)).1 := by
  rw [processPage_append, processPage_append]
  generalize processPage (photos, seen) pre = st
  obtain ⟨ph', s'⟩ := st
  show (processPage (processItem (ph', s') bad) post).1 = (processPage (ph', s') post).1
  obtain ⟨pidOpt, meta⟩ := bad
  change meta = ItemMeta.badJson ∨ meta = ItemMeta.noJson ∨ meta = ItemMeta.img none at hbad
  cases pidOpt with
  | none => rfl
  | some pid =>
    by_cases h1 : pid = ""
    · rw [processItem_skip ph' s' pid meta (Or.inl h1)]
    · by_cases h2 : pid ∈ s'
      · rw [processItem_skip ph' s' pid meta (Or.inr h2)]
      · rw [processItem_fresh ph' s' pid meta h1 h2]
        have hrec : itemRecords ph' pid meta = ph' := by
          rcases hbad with h | h | h <;> rw [h] <;> rfl
        rw [hrec]
        refine processPage_seen_congr pid post ph' (s' ++ [pid]) s'
          (hpost pid rfl) ?_
        intro q hq
        simp [List.mem_append, hq]

/-- Witness for C6: one unparsable blob between the valid items `A` and `C`
yields exactly the records of `A` and `C`. -/
theorem parse_failure_skips_only_item_witness :
    (processPage ([], []) [itA, itBad, itC]).1 = (processPage ([], []) [itA, itC]).1 := by
  have h := parse_failure_skips_only_item [] [] [itA] [itC] itBad (Or.inl rfl) (by
    intro pid hp it hit
    simp only [itBad, Option.some.injEq] at hp
    subst hp
    revert it hit
    decide)
  simpa using h

/-- C7: no record whose normalized image URL contains a known logo-path
segment (`beer_logos` or `brewery_logos`) ever appears in the crawl's output
list. -/
theorem no_logo_in_output (env : Nat → PageView) (mp : Option Nat) :
    ∀ r ∈ loadAllPhotos env mp,
      strContains r.url "beer_logos" = false ∧ strContains r.url "brewery_logos" = false :=
  fun r hr => loadMoreAux_logoFree env mp 100 0 [] [] (by simp) r hr

/-- Witness for C7: the first record of the three-pass example is logo-free. -/
theorem no_logo_in_output_witness :
    strContains recA.url "beer_logos" = false ∧ strContains recA.url "brewery_logos" = false :=
  no_logo_in_output exEnv none recA (by decide)

/-- C8: `download_photos` retrieves only positions whose sequential filename
is absent from the destination at the start, and every file initially present
keeps its exact content — so re-running the fetch step is idempotent with
respect to existing files. -/
theorem download_skips_existing (net : String → DlResult) (photos : List PhotoRecord)
    (fs0 : List (String × Content)) :
    (∀ name c, fsGet fs0 name = some c →
        fsGet (download_photos net photos fs0).fs name = some c) ∧
      ∀ j, j ∈ (download_photos net photos fs0).attempted → fsGet fs0 (fname j) = none :=
  dlRun_inv net fs0 photos 1 ⟨fs0, [], 0⟩ (fun _ _ hc => hc) (by simp)

/-- Witness for C8: with `photo_0001.jpg` already present, a run over two
records keeps its content and downloads only position 2. -/
theorem download_skips_existing_witness :
    fsGet (download_photos netOk [recA, recB] fs1).fs "photo_0001.jpg" = some [7] ∧
      fsGet fs1 (fname 2) = none :=
  ⟨(download_skips_existing netOk [recA, recB] fs1).1 "photo_0001.jpg" [7] (by decide),
    (download_skips_existing netOk [recA, recB] fs1).2 2 (by decide)⟩

/-- C9, counterexample: a single attempted (non-skipped) download that fails
is not followed by the politeness delay — the sleep sits inside the `try`
after the write, so the batch performs one attempt and zero sleeps, refuting
that the delay is observed after every attempted download whether it succeeds
or fails. -/
theorem delay_after_failure_cex :
    (download_photos netFail [recA] []).attempted.length = 1 ∧
      (download_photos netFail [recA] []).sleeps = 0 := by
  decide

/-- C9, amended: the fixed delay is observed after an attempted download
exactly when the attempt ran to completion; records skipped because their
file exists, and attempts that fail (network error, non-success status,
write error), proceed to the next record without the delay. -/
theorem delay_after_complete_download (net : String → DlResult) (st : DlState)
    (idx : Nat) (photo : PhotoRecord) :
    (dlStep net st idx photo).sleeps =
      st.sleeps +
        (if fsHas st.fs (fname idx) = false ∧ dlOk (net photo.url) = true then 1 else 0) := by
  unfold dlStep
  by_cases hf : fsHas st.fs (fname idx) = true
  · simp [hf]
  · have hf' : fsHas st.fs (fname idx) = false := by
      cases h : fsHas st.fs (fname idx)
      · rfl
      · exact absurd h hf
    cases hnet : net photo.url with
    | fetchFail => simp [hf, hf', hnet, dlOk]
    | writeFail part => simp [hf, hf', hnet, dlOk]
    | ok c => simp [hf, hf', hnet, dlOk]

/-- C10: requesting `max_photos = 0` does not cap the crawl at zero records;
because the cap test uses Python truthiness, the whole crawl behaves exactly
as with no maximum requested. -/
theorem max_zero_uncapped (env : Nat → PageView) :
    loadAllPhotosFull env (some 0) = loadAllPhotosFull env none :=
  loadMoreAux_zero env 100 0 [] []

end Scraper
